import Mathlib

/-!
Verification of the nano-banana-cli automation engine.

This file gives a shallow embedding, in Lean 4, of the parts of the
repository that the specification's testable properties talk about:

* `src/utils/paths.ts` (`getMultiOutputPath`, via the Node `path.parse` /
  `path.format` POSIX semantics the code calls into),
* `src/browser/auth-detector.ts` (`isAuthRequired`),
* the `gemini-automation.ts` module (`ensureProModel`, `waitForGeneration`,
  `waitForDownloadedFile`, `downloadImage`),
* `src/commands/generate.ts` (the two-phase multi-attempt orchestration and
  the generation watchdog), and
* `src/utils/cleanup.ts` (session registry and signal cleanup).

Strings are modelled as `List Char`; JavaScript numbers that hold natural
values (indices, counts, timestamps in milliseconds) are modelled as `Nat`.
Fallible browser primitives are modelled with `Except`, and each embedded
operation is written as a total, executable function of an explicit
environment describing the browser/filesystem observations it makes.
-/

/-- JS `String.prototype.startsWith`: `startsWithL pre s` is true when `pre`
is an initial segment of `s`. -/
def startsWithL : List Char → List Char → Bool
  | [], _ => true
  | _ :: _, [] => false
  | a :: pre, b :: s => a = b && startsWithL pre s

/-- JS `String.prototype.includes`: `containsSub pat s` is true when `pat`
occurs contiguously inside `s`. -/
def containsSub (pat : List Char) : List Char → Bool
  | [] => pat.isEmpty
  | c :: rest => startsWithL pat (c :: rest) || containsSub pat rest

/-- JS `String.prototype.endsWith`: `endsWithL suf s` is true when `suf` is a
final segment of `s`. -/
def endsWithL (suf s : List Char) : Bool :=
  startsWithL suf.reverse s.reverse

/-- Little-endian base-10 digits of `n`, with explicit fuel so the definition
is structural (the first argument only ever needs to be at least `n`). -/
def decDigitsAux : Nat → Nat → List Nat
  | _, 0 => []
  | 0, _ + 1 => []
  | f + 1, n + 1 => ((n + 1) % 10) :: decDigitsAux f ((n + 1) / 10)

/-- Little-endian base-10 digits of `n` (empty for `0`). -/
def decDigits (n : Nat) : List Nat :=
  decDigitsAux n n

/-- Value of a little-endian base-10 digit list. -/
def ofDecDigits : List Nat → Nat
  | [] => 0
  | d :: rest => d + 10 * ofDecDigits rest

/-- JS number-to-string conversion for natural numbers (the `${index}`
template-literal rendering used by `getMultiOutputPath` and its callers):
decimal digits, most significant first, with `0` rendered as `"0"`. -/
def natToString (n : Nat) : List Char :=
  if n = 0 then ['0'] else ((decDigits n).map Nat.digitChar).reverse

theorem ofDecDigits_decDigitsAux (f : Nat) :
    ∀ n, n ≤ f → ofDecDigits (decDigitsAux f n) = n := by
  induction f with
  | zero =>
    intro n hn
    interval_cases n
    simp [decDigitsAux, ofDecDigits]
  | succ f ih =>
    intro n hn
    match n with
    | 0 => simp [decDigitsAux, ofDecDigits]
    | m + 1 =>
      have hdiv : (m + 1) / 10 ≤ f := by
        have h1 : (m + 1) / 10 < m + 1 := Nat.div_lt_self (Nat.succ_pos m) (by omega)
        omega
      simp only [decDigitsAux, ofDecDigits, ih _ hdiv]
      omega

theorem ofDecDigits_decDigits (n : Nat) : ofDecDigits (decDigits n) = n :=
  ofDecDigits_decDigitsAux n n (Nat.le_refl n)

theorem decDigitsAux_lt_ten (f : Nat) :
    ∀ n, ∀ d ∈ decDigitsAux f n, d < 10 := by
  induction f with
  | zero =>
    intro n d hd
    match n with
    | 0 => simp [decDigitsAux] at hd
    | _ + 1 => simp [decDigitsAux] at hd
  | succ f ih =>
    intro n d hd
    match n with
    | 0 => simp [decDigitsAux] at hd
    | m + 1 =>
      simp only [decDigitsAux, List.mem_cons] at hd
      rcases hd with h | h
      · omega
      · exact ih _ _ h

theorem digitChar_inj_lt :
    ∀ a < 10, ∀ b < 10, Nat.digitChar a = Nat.digitChar b → a = b := by
  decide

theorem map_digitChar_inj :
    ∀ la lb : List Nat, (∀ d ∈ la, d < 10) → (∀ d ∈ lb, d < 10) →
      la.map Nat.digitChar = lb.map Nat.digitChar → la = lb := by
  intro la
  induction la with
  | nil =>
    intro lb _ _ h
    cases lb with
    | nil => rfl
    | cons b bs => simp at h
  | cons a as ih =>
    intro lb ha hb h
    cases lb with
    | nil => simp at h
    | cons b bs =>
      simp only [List.map_cons, List.cons.injEq] at h
      have hab : a = b := by
        apply digitChar_inj_lt
        · exact ha a (List.mem_cons_self a as)
        · exact hb b (List.mem_cons_self b bs)
        · exact h.1
      have : as = bs := by
        apply ih bs
        · intro d hd; exact ha d (List.mem_cons_of_mem a hd)
        · intro d hd; exact hb d (List.mem_cons_of_mem b hd)
        · exact h.2
      simp [hab, this]

theorem natToString_inj : ∀ a b : Nat, natToString a = natToString b → a = b := by
  have hz : ∀ n : Nat, n ≠ 0 →
      ((decDigits n).map Nat.digitChar).reverse = ['0'] → False := by
    intro n hn h
    have h' : (decDigits n).map Nat.digitChar = ['0'] := by
      have := congrArg List.reverse h
      simpa using this
    have hdig : decDigits n = [0] := by
      apply map_digitChar_inj
      · exact decDigitsAux_lt_ten n n
      · intro d hd; simp at hd; omega
      · simpa using h'
    have := ofDecDigits_decDigits n
    rw [hdig] at this
    simp [ofDecDigits] at this
    omega
  intro a b h
  by_cases ha : a = 0 <;> by_cases hb : b = 0
  · omega
  · exfalso
    apply hz b hb
    simpa [natToString, ha, hb] using h.symm
  · exfalso
    apply hz a ha
    simpa [natToString, ha, hb] using h
  · have h' : (decDigits a).map Nat.digitChar = (decDigits b).map Nat.digitChar := by
      have := congrArg List.reverse h
      simpa [natToString, ha, hb] using this
    have hdig : decDigits a = decDigits b :=
      map_digitChar_inj _ _ (decDigitsAux_lt_ten a a) (decDigitsAux_lt_ten b b) h'
    have := ofDecDigits_decDigits a
    rw [hdig, ofDecDigits_decDigits b] at this
    omega

/-!
## Node `path.parse` / `path.format` (POSIX) and `getMultiOutputPath`

`src/utils/paths.ts` computes multi-image output paths with

```
export function getMultiOutputPath(basePath, index, total) {
  if (total === 1) return basePath;
  const parsed = parse(basePath);
  if (!parsed.ext) return `${basePath}-${index}`;
  return format({ ...parsed, base: undefined, name: `${parsed.name}-${index}` });
}
```

The definitions below embed the POSIX `path.parse` algorithm from the Node
standard library (scan from the end skipping trailing separators; the `base`
is the final separator-free component; `dir` is everything before the last
separator run minus one separator, defaulting to the root for absolute
paths; the extension starts at the last dot of `base` unless that dot is its
first character or `base` is exactly `..` scanned at the component start),
and `path.format`, which joins `dir` and `name ++ ext` with a separator
unless `dir` equals the root.
-/

/-- Index skipped by Node's parse scan: `1` for an absolute path of length
more than one (the root separator), else `0`. -/
def rootSkip (p : List Char) : Nat :=
  if 1 < p.length ∧ p.head? = some '/' then 1 else 0

/-- The parse scan works from the end of `p.drop (rootSkip p)`. -/
def revAfterRoot (p : List Char) : List Char :=
  (p.drop (rootSkip p)).reverse

/-- Reversed remainder after skipping trailing separators. -/
def restRev (p : List Char) : List Char :=
  (revAfterRoot p).dropWhile (· = '/')

/-- Node `parse(p).base`: the final separator-free component. -/
def baseOf (p : List Char) : List Char :=
  ((restRev p).takeWhile (· ≠ '/')).reverse

/-- Reversed part of the scanned region lying before `base` (starts with the
separator that ends the `dir` part, when nonempty). -/
def preRev (p : List Char) : List Char :=
  (restRev p).dropWhile (· ≠ '/')

/-- Node `parse(p).root`. -/
def rootOf (p : List Char) : List Char :=
  if p.head? = some '/' then ['/'] else []

/-- Node `parse(p).dir`: the path up to (excluding) the separator preceding
`base` when one was scanned, else the root. -/
def dirOf (p : List Char) : List Char :=
  if preRev p = [] then rootOf p
  else p.take (rootSkip p + (preRev p).length - 1)

/-- Index of the last `'.'` in a component, tracked during the end-to-start
scan (`i` is the index of the list head within the component). -/
def lastDotIdxAux : List Char → Nat → Option Nat
  | [], _ => none
  | c :: rest, i =>
    match lastDotIdxAux rest (i + 1) with
    | some j => some j
    | none => if c = '.' then some i else none

/-- Index of the last `'.'` in a component. -/
def lastDotIdx (l : List Char) : Option Nat :=
  lastDotIdxAux l 0

/-- Node `parse(p).ext`: the suffix of `base` from its last dot, empty when
there is no dot, the dot is the first character of `base` (dotfile), or
`base` is exactly `..` with the component starting at the scan start (the
`..` guard fails for `/..`, whose component starts after the skipped root,
reproducing Node's behaviour). -/
def extOf (p : List Char) : List Char :=
  match lastDotIdx (baseOf p) with
  | none => []
  | some k =>
    if k = 0 then []
    else if baseOf p = ['.', '.'] ∧ ¬(rootSkip p = 1 ∧ preRev p = []) then []
    else (baseOf p).drop k

/-- Node `parse(p).name`: `base` without its extension. -/
def nameOf (p : List Char) : List Char :=
  if extOf p = [] then baseOf p
  else (baseOf p).take ((baseOf p).length - (extOf p).length)

/-- The `dir`-and-separator part contributed by Node `format`: `dir`
followed by a separator, except that an empty `dir` contributes nothing and
a `dir` equal to the root is used without an extra separator. -/
def fmtDirOf (p : List Char) : List Char :=
  if dirOf p = [] then []
  else if dirOf p = rootOf p then dirOf p
  else dirOf p ++ ['/']

/-- `getMultiOutputPath` from `src/utils/paths.ts`: the identity for
`total == 1`; otherwise appends `-{index}` when the parsed extension is
empty, and otherwise reformats with `-{index}` added to the parsed name. -/
def getMultiOutputPath (basePath : List Char) (index total : Nat) : List Char :=
  if total = 1 then basePath
  else if extOf basePath = [] then basePath ++ '-' :: natToString index
  else fmtDirOf basePath ++ nameOf basePath ++ '-' :: natToString index ++ extOf basePath


theorem dropWhile_head_false (q : Char → Bool) :
    ∀ (l : List Char) (a : Char) (t : List Char), l.dropWhile q = a :: t → q a = false := by
  intro l
  induction l with
  | nil => intro a t h; simp [List.dropWhile] at h
  | cons c rest ih =>
    intro a t h
    by_cases hq : q c
    · rw [List.dropWhile_cons_of_pos hq] at h
      exact ih a t h
    · rw [List.dropWhile_cons_of_neg hq] at h
      obtain ⟨rfl, -⟩ := List.cons.inj h
      simpa using hq

theorem baseOf_no_slash (p : List Char) : ∀ c ∈ baseOf p, c ≠ '/' := by
  intro c hc
  have hmem : c ∈ (restRev p).takeWhile (· ≠ '/') := by
    simpa [baseOf] using hc
  have := List.mem_takeWhile_imp hmem
  simpa using this

theorem baseOf_nil : baseOf [] = [] := by decide

theorem pathDecomp (p : List Char)
    (htr : p.getLast? ≠ some '/') (hb : baseOf p ≠ []) :
    p.drop (rootSkip p) = (preRev p).reverse ++ baseOf p := by
  have hp : p ≠ [] := by
    intro h
    apply hb
    rw [h]
    exact baseOf_nil
  have hr : p.drop (rootSkip p) ≠ [] := by
    unfold rootSkip
    by_cases hcond : 1 < p.length ∧ p.head? = some '/'
    · rw [if_pos hcond]
      have hlen : (p.drop 1).length = p.length - 1 := List.length_drop 1 p
      intro hnil
      rw [hnil] at hlen
      simp at hlen
      omega
    · rw [if_neg hcond]
      simpa using hp
  have hlast : (p.drop (rootSkip p)).getLast? = p.getLast? := by
    conv_rhs => rw [← List.take_append_drop (rootSkip p) p]
    exact (List.getLast?_append_of_ne_nil _ hr).symm
  have hhead : (revAfterRoot p).head? ≠ some '/' := by
    unfold revAfterRoot
    rw [List.head?_reverse, hlast]
    exact htr
  have hrr : restRev p = revAfterRoot p := by
    unfold restRev
    cases hrev : revAfterRoot p with
    | nil => simp
    | cons c t =>
      have hc : ¬(c = '/') := by
        rw [hrev] at hhead
        simpa using hhead
      simp [List.dropWhile_cons, hc]
  have hsplit := List.takeWhile_append_dropWhile (fun x : Char => decide (x ≠ '/')) (restRev p)
  calc p.drop (rootSkip p)
      = (revAfterRoot p).reverse := by
        unfold revAfterRoot
        rw [List.reverse_reverse]
    _ = (restRev p).reverse := by rw [hrr]
    _ = ((restRev p).takeWhile (· ≠ '/') ++ preRev p).reverse := by
        conv_lhs => rw [← hsplit]
        rfl
    _ = (preRev p).reverse ++ baseOf p := by
        rw [List.reverse_append]
        rfl

theorem path_reconstruct (p : List Char)
    (htr : p.getLast? ≠ some '/')
    (hds : ¬(p.take 2 = ['/', '/'] ∧ ∀ c ∈ p.drop 2, c ≠ '/'))
    (hb : baseOf p ≠ []) :
    p = fmtDirOf p ++ baseOf p := by
  have hp : p ≠ [] := by
    intro h
    apply hb
    rw [h]
    exact baseOf_nil
  have hdec := pathDecomp p htr hb
  have hfull := (List.take_append_drop (rootSkip p) p).symm
  cases hpre : preRev p with
  | nil =>
    rw [hpre] at hdec
    simp only [List.reverse_nil, List.nil_append] at hdec
    by_cases habs : p.head? = some '/'
    · have hs1 : rootSkip p = 1 := by
        rcases Nat.lt_or_ge 1 p.length with hlen | hlen
        · unfold rootSkip
          rw [if_pos ⟨hlen, habs⟩]
        · exfalso
          apply hb
          have hp1 : p = ['/'] := by
            cases p with
            | nil => exact absurd rfl hp
            | cons c rest =>
              simp only [List.head?_cons, Option.some.injEq] at habs
              cases rest with
              | nil => rw [habs]
              | cons d rest' =>
                simp only [List.length_cons] at hlen
                omega
          rw [hp1]
          decide
      have htake1 : p.take 1 = ['/'] := by
        cases p with
        | nil => exact absurd rfl hp
        | cons c rest =>
          simp only [List.head?_cons, Option.some.injEq] at habs
          rw [habs]
          rfl
      have hdir : dirOf p = ['/'] := by
        unfold dirOf rootOf
        rw [hpre, if_pos rfl, if_pos habs]
      have hroot : rootOf p = ['/'] := by
        unfold rootOf
        rw [if_pos habs]
      have hfmt : fmtDirOf p = ['/'] := by
        unfold fmtDirOf
        rw [hdir, hroot]
        simp
      rw [hfmt]
      rw [hs1] at hfull hdec
      rw [htake1, hdec] at hfull
      exact hfull
    · have hs0 : rootSkip p = 0 := by
        unfold rootSkip
        rw [if_neg]
        intro hcond
        exact habs hcond.2
      have hdir : dirOf p = [] := by
        unfold dirOf rootOf
        rw [hpre, if_pos rfl, if_neg habs]
      have hfmt : fmtDirOf p = [] := by
        unfold fmtDirOf
        rw [hdir]
        simp
      rw [hfmt, List.nil_append, ← hdec, hs0, List.drop_zero]
  | cons c0 pre' =>
    have hc0 : c0 = '/' := by
      have := dropWhile_head_false (fun x : Char => decide (x ≠ '/')) (restRev p) c0 pre' (by
        rw [← hpre]
        rfl)
      simpa using this
    subst hc0
    rw [hpre] at hdec
    rw [List.reverse_cons] at hdec
    have hP : p = (p.take (rootSkip p) ++ pre'.reverse) ++ ('/' :: baseOf p) := by
      conv_lhs => rw [hfull, hdec]
      simp
    have hslen : rootSkip p ≤ p.length := by
      unfold rootSkip
      by_cases hcond : 1 < p.length ∧ p.head? = some '/'
      · rw [if_pos hcond]; omega
      · rw [if_neg hcond]; omega
    have htlen : (p.take (rootSkip p)).length = rootSkip p := by
      rw [List.length_take]
      omega
    have hblen : 0 < (baseOf p).length := List.length_pos.mpr hb
    have hprene : preRev p ≠ [] := by
      rw [hpre]
      exact List.cons_ne_nil _ _
    have hdir : dirOf p = p.take (rootSkip p) ++ pre'.reverse := by
      have harith : rootSkip p + (preRev p).length - 1 =
          (p.take (rootSkip p) ++ pre'.reverse).length := by
        rw [hpre]
        simp only [List.length_cons, List.length_append, List.length_reverse, htlen]
        omega
      unfold dirOf
      rw [if_neg hprene, harith]
      obtain ⟨A, hA⟩ : ∃ A, A = p.take (rootSkip p) ++ pre'.reverse := ⟨_, rfl⟩
      rw [← hA] at hP ⊢
      conv_lhs => rw [hP]
      exact List.take_left' rfl
    by_cases hrooteq : dirOf p = rootOf p
    · exfalso
      by_cases habs : p.head? = some '/'
      · have hroot : rootOf p = ['/'] := by
          unfold rootOf
          rw [if_pos habs]
        rw [hdir, hroot] at hrooteq
        have hs1 : rootSkip p = 1 := by
          have hlen2 : 1 < p.length := by
            have := congrArg List.length hP
            simp only [List.length_append, List.length_cons, htlen] at this
            omega
          unfold rootSkip
          rw [if_pos ⟨hlen2, habs⟩]
        have hlen1 : (p.take (rootSkip p)).length + pre'.length = 1 := by
          have := congrArg List.length hrooteq
          simpa using this
        rw [htlen, hs1] at hlen1
        have hpre0 : pre' = [] := by
          have : pre'.length = 0 := by omega
          exact List.length_eq_zero.mp this
        have htake1 : p.take 1 = ['/'] := by
          rw [hpre0] at hrooteq
          rw [hs1] at hrooteq
          simpa using hrooteq
        have hpform : p = '/' :: '/' :: baseOf p := by
          conv_lhs => rw [hP]
          rw [hpre0, hs1, htake1]
          rfl
        apply hds
        constructor
        · rw [hpform]
          rfl
        · intro c hc
          rw [hpform] at hc
          simp only [List.drop_succ_cons, List.drop_zero] at hc
          exact baseOf_no_slash p c hc
      · have hroot : rootOf p = [] := by
          unfold rootOf
          rw [if_neg habs]
        rw [hdir, hroot] at hrooteq
        have h1 : p.take (rootSkip p) = [] ∧ pre'.reverse = [] :=
          List.append_eq_nil.mp hrooteq
        have hs0 : rootSkip p = 0 := by
          unfold rootSkip
          rw [if_neg]
          intro hcond
          exact habs hcond.2
        have hpre0 : pre' = [] := by simpa using h1.2
        have hpform : p = '/' :: baseOf p := by
          conv_lhs => rw [hP]
          rw [hpre0, hs0]
          simp
        apply habs
        rw [hpform]
        rfl
    · have hdirne : dirOf p ≠ [] := by
        rw [hdir]
        intro hnil
        have h1 : p.take (rootSkip p) = [] ∧ pre'.reverse = [] :=
          List.append_eq_nil.mp hnil
        have hs0 : rootSkip p = 0 := by
          have := congrArg List.length h1.1
          rw [htlen] at this
          simpa using this
        have hpre0 : pre' = [] := by simpa using h1.2
        have hpform : p = '/' :: baseOf p := by
          conv_lhs => rw [hP]
          rw [hpre0, hs0]
          simp
        have habs : p.head? = some '/' := by
          rw [hpform]
          rfl
        have hlen2 : 1 < p.length := by
          rw [hpform]
          simp only [List.length_cons]
          omega
        unfold rootSkip at hs0
        rw [if_pos ⟨hlen2, habs⟩] at hs0
        omega
      have hfmt : fmtDirOf p = dirOf p ++ ['/'] := by
        unfold fmtDirOf
        rw [if_neg hdirne, if_neg hrooteq]
      rw [hfmt, hdir]
      conv_lhs => rw [hP]
      simp

theorem lastDotIdxAux_bound :
    ∀ (l : List Char) (i j : Nat), lastDotIdxAux l i = some j → i ≤ j ∧ j < i + l.length := by
  intro l
  induction l with
  | nil => intro i j h; simp [lastDotIdxAux] at h
  | cons c rest ih =>
    intro i j h
    simp only [lastDotIdxAux] at h
    cases hr : lastDotIdxAux rest (i + 1) with
    | some j' =>
      rw [hr] at h
      simp only [Option.some.injEq] at h
      subst h
      have := ih (i + 1) j' hr
      simp only [List.length_cons]
      omega
    | none =>
      rw [hr] at h
      by_cases hc : c = '.'
      · rw [if_pos hc] at h
        simp only [Option.some.injEq] at h
        subst h
        simp only [List.length_cons]
        omega
      · rw [if_neg hc] at h
        simp at h

theorem extOf_eq (p : List Char) :
    extOf p = [] ∨ ∃ k, 0 < k ∧ k < (baseOf p).length ∧ extOf p = (baseOf p).drop k := by
  unfold extOf
  cases hk : lastDotIdx (baseOf p) with
  | none => left; rfl
  | some k =>
    by_cases hk0 : k = 0
    · left
      simp [hk0]
    · by_cases hdd : baseOf p = ['.', '.'] ∧ ¬(rootSkip p = 1 ∧ preRev p = [])
      · left
        simp [hk0, hdd]
      · right
        have hbound := lastDotIdxAux_bound (baseOf p) 0 k hk
        refine ⟨k, by omega, by omega, ?_⟩
        show (if k = 0 then []
          else if baseOf p = ['.', '.'] ∧ ¬(rootSkip p = 1 ∧ preRev p = []) then []
          else (baseOf p).drop k) = (baseOf p).drop k
        rw [if_neg hk0, if_neg hdd]

theorem base_name_ext (p : List Char) : baseOf p = nameOf p ++ extOf p := by
  by_cases h : extOf p = []
  · unfold nameOf
    rw [if_pos h, h, List.append_nil]
  · unfold nameOf
    rw [if_neg h]
    rcases extOf_eq p with hnil | ⟨k, hk0, hklt, hdrop⟩
    · exact absurd hnil h
    · rw [hdrop, List.length_drop]
      have heq : (baseOf p).length - ((baseOf p).length - k) = k := by omega
      rw [heq, List.take_append_drop]

/-- C3 (amended): `getMultiOutputPath(base, i, total)` returns `base`
unchanged whenever `total == 1`; for `total > 1` and a base path that does
not end in a separator and is not of the form `//name` (two leading
separators directly followed by the separator-free final component — the
two inputs Node's `parse`/`format` round trip normalizes away), the result
is `base` with `-{i}` inserted immediately before its parsed extension;
and for `total > 1` the result is injective across distinct indices for
every base. -/
theorem c3_getMultiOutputPath (p : List Char) (i j total : Nat) :
    getMultiOutputPath p i 1 = p ∧
    (1 < total → p.getLast? ≠ some '/' →
      ¬(p.take 2 = ['/', '/'] ∧ ∀ c ∈ p.drop 2, c ≠ '/') →
      ∃ stem, p = stem ++ extOf p ∧
        getMultiOutputPath p i total = stem ++ '-' :: natToString i ++ extOf p) ∧
    (1 < total → i ≠ j →
      getMultiOutputPath p i total ≠ getMultiOutputPath p j total) := by
  have htot : total ≠ 1 → (total = 1) = False := by
    intro h
    simp [h]
  refine ⟨?_, ?_, ?_⟩
  · unfold getMultiOutputPath
    rw [if_pos rfl]
  · intro ht htr hds
    have hne : total ≠ 1 := by omega
    by_cases hext : extOf p = []
    · refine ⟨p, by rw [hext, List.append_nil], ?_⟩
      unfold getMultiOutputPath
      rw [if_neg hne, if_pos hext, hext]
      simp
    · have hbne : baseOf p ≠ [] := by
        rcases extOf_eq p with hnil | ⟨k, hk0, hklt, hdrop⟩
        · exact absurd hnil hext
        · intro hbnil
          rw [hbnil] at hklt
          simp at hklt
      have hrec := path_reconstruct p htr hds hbne
      refine ⟨fmtDirOf p ++ nameOf p, ?_, ?_⟩
      · rw [List.append_assoc, ← base_name_ext p]
        exact hrec
      · unfold getMultiOutputPath
        rw [if_neg hne, if_neg hext]
  · intro ht hij
    have hne : total ≠ 1 := by omega
    unfold getMultiOutputPath
    simp only [if_neg hne]
    by_cases hext : extOf p = []
    · simp only [if_pos hext]
      intro heq
      have h1 : '-' :: natToString i = '-' :: natToString j := List.append_cancel_left heq
      have h2 : natToString i = natToString j := by simpa using h1
      exact hij (natToString_inj i j h2)
    · simp only [if_neg hext]
      intro heq
      have h1 := List.append_cancel_right heq
      have h2 : '-' :: natToString i = '-' :: natToString j := List.append_cancel_left h1
      have h3 : natToString i = natToString j := by simpa using h2
      exact hij (natToString_inj i j h3)

/-- Witness for `c3_getMultiOutputPath` at the concrete base path
`dir/art.png` with indices 2 and 3 and `total = 3`. -/
theorem c3_getMultiOutputPath_witness :
    (getMultiOutputPath ['d', 'i', 'r', '/', 'a', 'r', 't', '.', 'p', 'n', 'g'] 2 1 =
      ['d', 'i', 'r', '/', 'a', 'r', 't', '.', 'p', 'n', 'g']) ∧
    (∃ stem, ['d', 'i', 'r', '/', 'a', 'r', 't', '.', 'p', 'n', 'g'] =
        stem ++ extOf ['d', 'i', 'r', '/', 'a', 'r', 't', '.', 'p', 'n', 'g'] ∧
      getMultiOutputPath ['d', 'i', 'r', '/', 'a', 'r', 't', '.', 'p', 'n', 'g'] 2 3 =
        stem ++ '-' :: natToString 2 ++
          extOf ['d', 'i', 'r', '/', 'a', 'r', 't', '.', 'p', 'n', 'g']) ∧
    getMultiOutputPath ['d', 'i', 'r', '/', 'a', 'r', 't', '.', 'p', 'n', 'g'] 2 3 ≠
      getMultiOutputPath ['d', 'i', 'r', '/', 'a', 'r', 't', '.', 'p', 'n', 'g'] 3 3 := by
  obtain ⟨h1, h2, h3⟩ :=
    c3_getMultiOutputPath ['d', 'i', 'r', '/', 'a', 'r', 't', '.', 'p', 'n', 'g'] 2 3 3
  exact ⟨h1, h2 (by decide) (by decide) (by decide), h3 (by decide) (by decide)⟩

/-- The relation "`result` is `base` with `-{idx}` inserted before some
suffix of `base`" — the weakest reading of the spec sentence "a path with
`-{i}` inserted before the extension" (any stem/extension split of `base`
is allowed). -/
def insertionResultAt (base result : List Char) (idx : Nat) : Prop :=
  ∃ stem ext, base = stem ++ ext ∧ result = stem ++ '-' :: natToString idx ++ ext

/-- C3 counterexample: for the base path `a.png/` (trailing separator) and
`total = 2`, the code returns `a-2.png` — Node's `parse`/`format` round
trip drops the trailing separator — which is not `a.png/` with `-2`
inserted before any of its suffixes, refuting the claim's "for every
base". -/
theorem c3_trailing_sep_counterexample :
    ¬ insertionResultAt ['a', '.', 'p', 'n', 'g', '/']
      (getMultiOutputPath ['a', '.', 'p', 'n', 'g', '/'] 2 2) 2 := by
  have hval : getMultiOutputPath ['a', '.', 'p', 'n', 'g', '/'] 2 2 =
      ['a', '-', '2', '.', 'p', 'n', 'g'] := by decide
  rintro ⟨stem, ext, hb, hr⟩
  rw [hval] at hr
  have hlb := congrArg List.length hb
  have hlr := congrArg List.length hr
  have hn2 : (natToString 2).length = 1 := by decide
  simp [List.length_append, List.length_cons, hn2] at hlb hlr
  omega

/-!
## Authentication detector (`src/browser/auth-detector.ts`)
-/

/-- `GEMINI_APP_URL` constant. -/
def GEMINI_APP_URL : List Char := ("https://gemini.google.com/app").toList

/-- `AUTH_URL_PATTERNS` constant. -/
def AUTH_URL_PATTERNS : List (List Char) :=
  [("accounts.google.com").toList,
   ("gemini.google.com/signin").toList,
   ("gemini.google.com/auth").toList,
   ("accounts.google.com/v3/signin").toList]

/-- `AUTH_DOM_SELECTORS` constant (the Puppeteer variant in
`src/browser/auth-detector.ts`; the Playwright variant of the same module
carries two extra `:has-text` selectors but identical control flow). -/
def AUTH_DOM_SELECTORS : List (List Char) :=
  [("input[type=\"email\"][name=\"identifier\"]").toList,
   ("[aria-label*=\"Sign in\" i]").toList,
   ("[aria-label*=\"authentication\" i]").toList,
   ("[aria-label*=\"Google Account\" i]").toList,
   ("[data-identifier]").toList]

/-- Observable behaviour of a page as consumed by the authentication
detector: reading the address may throw (page closed / navigated away), and
each DOM probe (`page.$` plus the bounding-box visibility check) may throw
or report whether a visible element matched. -/
structure AuthPage where
  url : Except Unit (List Char)
  selectorVisible : List Char → Except Unit Bool

/-- `hasVisibleAuthElement`: walks `AUTH_DOM_SELECTORS` in order; a probe
that throws is caught and the walk continues with the next selector; the
result is true as soon as any probe reports a visible match, false when the
list is exhausted. -/
def hasVisibleAuthElement (pg : AuthPage) : Bool :=
  AUTH_DOM_SELECTORS.any fun s =>
    match pg.selectorVisible s with
    | .ok b => b
    | .error _ => false

/-- Body of `isAuthRequired` before its outer `try`/`catch`: read the
current address (this read can throw); return true as soon as any known
auth URL pattern occurs in the address; otherwise return false when the
address starts with the Gemini app URL; otherwise fall back to the DOM
probes. -/
def isAuthRequiredRaw (pg : AuthPage) : Except Unit Bool :=
  match pg.url with
  | .error e => .error e
  | .ok url =>
    if AUTH_URL_PATTERNS.any fun pat => containsSub pat url then .ok true
    else if startsWithL GEMINI_APP_URL url then .ok false
    else .ok (hasVisibleAuthElement pg)

/-- `isAuthRequired` from `src/browser/auth-detector.ts`: the whole body is
wrapped in `try { ... } catch { return false; }`. -/
def isAuthRequired (pg : AuthPage) : Bool :=
  match isAuthRequiredRaw pg with
  | .ok b => b
  | .error _ => false

theorem isAuthRequiredRaw_ok (pg : AuthPage) (url : List Char)
    (h : pg.url = Except.ok url) :
    isAuthRequiredRaw pg =
      (if AUTH_URL_PATTERNS.any fun pat => containsSub pat url then Except.ok true
       else if startsWithL GEMINI_APP_URL url then Except.ok false
       else Except.ok (hasVisibleAuthElement pg)) := by
  unfold isAuthRequiredRaw
  rw [h]

theorem isAuthRequiredRaw_err (pg : AuthPage) (e : Unit)
    (h : pg.url = Except.error e) :
    isAuthRequiredRaw pg = Except.error e := by
  unfold isAuthRequiredRaw
  rw [h]

/-- C5: authentication classification is order-sensitive — for every page
whose current address both contains one of the known account-provider /
sign-in URL patterns and starts with the main Gemini application address,
`isAuthRequired` classifies it AuthRequired (returns true), because the
pattern rule is evaluated before the main-address rule. -/
theorem c5_auth_order (pg : AuthPage) (url : List Char)
    (hurl : pg.url = Except.ok url)
    (hpat : AUTH_URL_PATTERNS.any (fun pat => containsSub pat url) = true)
    (hmain : startsWithL GEMINI_APP_URL url = true) :
    isAuthRequired pg = true := by
  have hm := hmain
  unfold isAuthRequired
  rw [isAuthRequiredRaw_ok pg url hurl, hpat]
  rfl

/-- Witness for `c5_auth_order`: a page on the Gemini app address whose
query string mentions `accounts.google.com`. -/
theorem c5_auth_order_witness :
    isAuthRequired
      ⟨Except.ok (("https://gemini.google.com/app?continue=accounts.google.com").toList),
       fun _ => Except.ok false⟩ = true :=
  c5_auth_order _ (("https://gemini.google.com/app?continue=accounts.google.com").toList)
    rfl (by decide) (by decide)

/-- C8 (amended): the authentication detector never propagates a fault —
it always yields a Boolean classification. A fault while reading the page
address yields the Authenticated classification (false). A fault in one DOM
probe is swallowed per selector and the remaining selectors are still
consulted, so a later visible sign-in element still yields true; when the
URL rules do not match and no probe reports a visible element (in
particular when every probe faults), the result is false. -/
theorem c8_auth_detector_fail_open (pg : AuthPage) :
    (∀ e, pg.url = Except.error e → isAuthRequired pg = false) ∧
    (∀ url, pg.url = Except.ok url →
      AUTH_URL_PATTERNS.any (fun pat => containsSub pat url) = false →
      startsWithL GEMINI_APP_URL url = false →
      (∀ s ∈ AUTH_DOM_SELECTORS, pg.selectorVisible s ≠ Except.ok true) →
      isAuthRequired pg = false) ∧
    (∀ url s, pg.url = Except.ok url →
      AUTH_URL_PATTERNS.any (fun pat => containsSub pat url) = false →
      startsWithL GEMINI_APP_URL url = false →
      s ∈ AUTH_DOM_SELECTORS → pg.selectorVisible s = Except.ok true →
      isAuthRequired pg = true) := by
  refine ⟨?_, ?_, ?_⟩
  · intro e he
    unfold isAuthRequired
    rw [isAuthRequiredRaw_err pg e he]
  · intro url hurl hpat hmain hsel
    have hvis : hasVisibleAuthElement pg = false := by
      unfold hasVisibleAuthElement
      simp only [List.any_eq_false]
      intro s hs
      cases hcase : pg.selectorVisible s with
      | ok b =>
        cases b
        · simp
        · exact absurd hcase (hsel s hs)
      | error e => simp
    unfold isAuthRequired
    rw [isAuthRequiredRaw_ok pg url hurl, hpat, hmain, hvis]
    rfl
  · intro url s hurl hpat hmain hs hvis
    have hany : hasVisibleAuthElement pg = true := by
      unfold hasVisibleAuthElement
      simp only [List.any_eq_true]
      exact ⟨s, hs, by rw [hvis]⟩
    unfold isAuthRequired
    rw [isAuthRequiredRaw_ok pg url hurl, hpat, hmain, hany]
    rfl

/-- Witness for `c8_auth_detector_fail_open`: a page whose address read
throws classifies as Authenticated. -/
theorem c8_auth_detector_fail_open_witness :
    isAuthRequired ⟨Except.error (), fun _ => Except.ok false⟩ = false :=
  (c8_auth_detector_fail_open ⟨Except.error (), fun _ => Except.ok false⟩).1 () rfl

/-- A page whose first DOM probe throws while a later probe finds a visible
sign-in element, on an address matching neither URL rule. -/
def c8FaultPage : AuthPage :=
  ⟨Except.ok (("https://example.com").toList),
   fun s =>
     if s = ("input[type=\"email\"][name=\"identifier\"]").toList then Except.error ()
     else Except.ok true⟩

/-- C8 counterexample: an internal fault occurs during classification (the
first selector probe throws), yet `isAuthRequired` returns true — the
fault is skipped and a later probe still reports a visible sign-in element
— refuting "for every internal fault the detector returns the
Authenticated classification (false)". -/
theorem c8_selector_fault_counterexample :
    c8FaultPage.selectorVisible (("input[type=\"email\"][name=\"identifier\"]").toList) =
      Except.error () ∧
    isAuthRequired c8FaultPage = true := by
  constructor
  · rfl
  · rfl

/-!
## Model-tier verification (`ensureProModel` in `gemini-automation.ts`)
-/

/-- The closed set of generation-quality tiers (`ModelLabel`). -/
inductive ModelLabel where
  | fast
  | thinking
  | pro
deriving DecidableEq

/-- A UI action performed by the tier-verification step: clicking the
composer model chip (which opens the tier selector) or clicking a tier
option in the opened menu. -/
inductive TierAction where
  | chipClick (label : ModelLabel)
  | optionClick (label : ModelLabel)
deriving DecidableEq

/-- Typed errors from `src/utils/errors.ts` used by the workflow models
(`SelectorError`, `GenerationTimeoutError`, `DownloadError`). -/
inductive AutomationError where
  | selectorError (target : List Char)
  | generationTimeout (seconds : Nat)
  | downloadError (message : List Char)
  | fsRenameError
deriving DecidableEq

/-- Observable behaviour of a page as consumed by `ensureProModel`:
`currentChip` is the tier read by `getCurrentModelChip` (`none` when no
chip candidate is detected); `clickChip l` tells whether `clickModelChip`
finds and clicks a chip labelled `l`; `clickOption l` tells whether
`clickModelOptionInOpenMenu` finds and clicks the menu option `l`. -/
structure TierPage where
  currentChip : Option ModelLabel
  clickChip : ModelLabel → Bool
  clickOption : ModelLabel → Bool

/-- `ensureProModel` from `gemini-automation.ts`, with the successful UI
actions it performed made explicit: read the current chip; return
immediately unless it is `fast` ("Only force-switch when Gemini defaults
to Fast"); otherwise click the `fast` chip (raising `SelectorError("Fast
model chip")` when that fails), then click the `pro` option in the opened
menu (raising `SelectorError("Pro model option")` when that fails). -/
def ensureProModel (pg : TierPage) : Except AutomationError (List TierAction) :=
  if pg.currentChip ≠ some ModelLabel.fast then Except.ok []
  else if pg.clickChip ModelLabel.fast = false then
    Except.error (AutomationError.selectorError (("Fast model chip").toList))
  else if pg.clickOption ModelLabel.pro = false then
    Except.error (AutomationError.selectorError (("Pro model option").toList))
  else Except.ok [TierAction.chipClick ModelLabel.fast, TierAction.optionClick ModelLabel.pro]

/-- C2 (amended): the model-verification step reads the detected tier; for
any detection other than `fast` — the top tier `pro`, but also the middle
tier `thinking` and a failed detection — it performs no action; when
`fast` is detected it opens the tier selector and selects the top (`pro`)
tier; and whenever the switch was requested but cannot be completed (the
chip click or the option click fails) the step raises a selector error
rather than silently generating at the wrong tier. -/
theorem c2_ensure_pro_model (pg : TierPage) :
    (pg.currentChip ≠ some ModelLabel.fast → ensureProModel pg = Except.ok []) ∧
    (pg.currentChip = some ModelLabel.fast → pg.clickChip ModelLabel.fast = true →
      pg.clickOption ModelLabel.pro = true →
      ensureProModel pg =
        Except.ok [TierAction.chipClick ModelLabel.fast,
          TierAction.optionClick ModelLabel.pro]) ∧
    (pg.currentChip = some ModelLabel.fast → pg.clickChip ModelLabel.fast = false →
      ensureProModel pg =
        Except.error (AutomationError.selectorError (("Fast model chip").toList))) ∧
    (pg.currentChip = some ModelLabel.fast → pg.clickChip ModelLabel.fast = true →
      pg.clickOption ModelLabel.pro = false →
      ensureProModel pg =
        Except.error (AutomationError.selectorError (("Pro model option").toList))) := by
  refine ⟨?_, ?_, ?_, ?_⟩
  · intro h
    simp [ensureProModel, h]
  · intro h1 h2 h3
    simp [ensureProModel, h1, h2, h3]
  · intro h1 h2
    simp [ensureProModel, h1, h2]
  · intro h1 h2 h3
    simp [ensureProModel, h1, h2, h3]

/-- Witness for `c2_ensure_pro_model`: a page detected at the `fast` tier
with both clicks available completes the switch to `pro`. -/
theorem c2_ensure_pro_model_witness :
    ensureProModel ⟨some ModelLabel.fast, fun _ => true, fun _ => true⟩ =
      Except.ok [TierAction.chipClick ModelLabel.fast,
        TierAction.optionClick ModelLabel.pro] :=
  (c2_ensure_pro_model ⟨some ModelLabel.fast, fun _ => true, fun _ => true⟩).2.1 rfl rfl rfl

/-- C2 counterexample: with the `thinking` (not top) tier detected and all
tier controls clickable, the step performs no action and raises nothing —
it neither opens the tier selector nor selects the top tier — refuting
"if not the top tier, open the tier selector and select the top tier". -/
theorem c2_thinking_counterexample :
    ¬ ((∃ e, ensureProModel ⟨some ModelLabel.thinking, fun _ => true, fun _ => true⟩ =
          Except.error e) ∨
       (∃ acts, ensureProModel ⟨some ModelLabel.thinking, fun _ => true, fun _ => true⟩ =
          Except.ok acts ∧ TierAction.optionClick ModelLabel.pro ∈ acts)) := by
  have hval : ensureProModel ⟨some ModelLabel.thinking, fun _ => true, fun _ => true⟩ =
      Except.ok [] := rfl
  rintro (⟨e, he⟩ | ⟨acts, hacts, hmem⟩)
  · rw [hval] at he
    exact Except.noConfusion he
  · rw [hval] at hacts
    injection hacts with h
    rw [← h] at hmem
    simp at hmem

/-!
## Generation wait and caller-level watchdog
(`waitForGeneration` in `gemini-automation.ts`,
`waitForGenerationWithWatchdog` in `src/commands/generate.ts`)
-/

/-- `GENERATION_TIMEOUT` (300 000 ms) from `gemini-automation.ts`. -/
def GENERATION_TIMEOUT : Nat := 300000

/-- The 30 000 ms bound on the `/app/…` URL wait inside
`waitForGeneration` (its expiry is swallowed by a `catch`). -/
def URL_WAIT_TIMEOUT : Nat := 30000

/-- `generationGuardTimeoutMs` (360 000 ms) from the `generate` command. -/
def generationGuardTimeoutMs : Nat := 360000

/-- Timing environment of one `waitForGeneration` call: how long until the
page URL matches `/app/…`, and when — if ever — the generated-image
selector becomes visible after that. -/
structure GenWaitEnv where
  urlSettleDelay : Nat
  imageVisibleAt : Option Nat

/-- The elapsed milliseconds at which the `waitForGeneration(page)` promise
settles: the URL wait contributes at most `URL_WAIT_TIMEOUT` (its own
timeout, errors swallowed); then the selector wait resolves when the image
shows strictly within `GENERATION_TIMEOUT`, else rejects at the timeout. -/
def waitForGenerationSettleTime (e : GenWaitEnv) : Nat :=
  match e.imageVisibleAt with
  | some t =>
    if t < GENERATION_TIMEOUT then min e.urlSettleDelay URL_WAIT_TIMEOUT + t
    else min e.urlSettleDelay URL_WAIT_TIMEOUT + GENERATION_TIMEOUT
  | none => min e.urlSettleDelay URL_WAIT_TIMEOUT + GENERATION_TIMEOUT

/-- The outcome with which `waitForGeneration(page)` settles: success when
the image appears within `GENERATION_TIMEOUT`, else the `catch` converts
the selector-wait expiry into
`GenerationTimeoutError(GENERATION_TIMEOUT / 1000)`. -/
def waitForGenerationResult (e : GenWaitEnv) : Except AutomationError Unit :=
  match e.imageVisibleAt with
  | some t =>
    if t < GENERATION_TIMEOUT then Except.ok ()
    else Except.error (AutomationError.generationTimeout (GENERATION_TIMEOUT / 1000))
  | none => Except.error (AutomationError.generationTimeout (GENERATION_TIMEOUT / 1000))

/-- Which side of the `Promise.race` in `waitForGenerationWithWatchdog`
settles first. -/
inductive RaceOutcome where
  | fromGeneration (r : Except AutomationError Unit)
  | fromWatchdog

/-- `waitForGenerationWithWatchdog` from `src/commands/generate.ts`: a
`Promise.race` between `waitForGeneration(page)` and a watchdog timer that
rejects after `generationGuardTimeoutMs`; the earlier settle time wins, and
`waitForGeneration` is listed first so it also wins a tie. -/
def waitForGenerationWithWatchdog (e : GenWaitEnv) : RaceOutcome :=
  if waitForGenerationSettleTime e ≤ generationGuardTimeoutMs then
    RaceOutcome.fromGeneration (waitForGenerationResult e)
  else RaceOutcome.fromWatchdog

theorem waitForGenerationSettleTime_le (e : GenWaitEnv) :
    waitForGenerationSettleTime e ≤ URL_WAIT_TIMEOUT + GENERATION_TIMEOUT := by
  obtain ⟨d, img⟩ := e
  have hmin : min d URL_WAIT_TIMEOUT ≤ URL_WAIT_TIMEOUT := Nat.min_le_right _ _
  cases img with
  | some t =>
    show (if t < GENERATION_TIMEOUT then min d URL_WAIT_TIMEOUT + t
      else min d URL_WAIT_TIMEOUT + GENERATION_TIMEOUT) ≤
      URL_WAIT_TIMEOUT + GENERATION_TIMEOUT
    by_cases ht : t < GENERATION_TIMEOUT
    · rw [if_pos ht]
      omega
    · rw [if_neg ht]
      omega
  | none =>
    show min d URL_WAIT_TIMEOUT + GENERATION_TIMEOUT ≤
      URL_WAIT_TIMEOUT + GENERATION_TIMEOUT
    omega

theorem watchdog_always_generation (e : GenWaitEnv) :
    waitForGenerationWithWatchdog e =
      RaceOutcome.fromGeneration (waitForGenerationResult e) := by
  have hle := waitForGenerationSettleTime_le e
  have hlt : waitForGenerationSettleTime e ≤ generationGuardTimeoutMs := by
    unfold URL_WAIT_TIMEOUT GENERATION_TIMEOUT at hle
    unfold generationGuardTimeoutMs
    omega
  unfold waitForGenerationWithWatchdog
  rw [if_pos hlt]

/-- C7: the caller-level watchdog timeout (360 000 ms) is strictly larger
than the internal result-polling timeout (300 000 ms) — by more, even,
than the 30 000 ms URL settle bound that precedes the poll — so the race
always settles from `waitForGeneration`, and when the image never appears
the internal `GenerationTimeout(300)` error fires, never the watchdog. -/
theorem c7_watchdog_exceeds_internal :
    GENERATION_TIMEOUT < generationGuardTimeoutMs ∧
    URL_WAIT_TIMEOUT + GENERATION_TIMEOUT < generationGuardTimeoutMs ∧
    (∀ e : GenWaitEnv,
      waitForGenerationWithWatchdog e =
        RaceOutcome.fromGeneration (waitForGenerationResult e)) ∧
    (∀ d : Nat,
      waitForGenerationWithWatchdog ⟨d, none⟩ =
        RaceOutcome.fromGeneration
          (Except.error (AutomationError.generationTimeout (GENERATION_TIMEOUT / 1000)))) := by
  refine ⟨by decide, by decide, watchdog_always_generation, ?_⟩
  intro d
  rw [watchdog_always_generation ⟨d, none⟩]
  rfl

/-!
## Multi-attempt orchestration (`src/commands/generate.ts`, count > 1)
-/

/-- Per-attempt outcomes of the browser steps, by 0-based worker index:
`submitOk i` tells whether `startSingleImageGeneration` (navigate, new
chat, enter creation mode, type prompt, trigger) completes without
throwing for worker `i`; `finishOk i` tells the same for
`finishSingleImageDownload` (wait, hover, download). -/
structure MultiEnv where
  submitOk : Nat → Bool
  finishOk : Nat → Bool

/-- Observable phase events of the orchestration loops, with 1-based
attempt indices as reported to the user. -/
inductive PhaseEv where
  | submitStart (i : Nat)
  | waitStart (i : Nat)
deriving DecidableEq

/-- Phase A (the first `for` loop): for each worker index in order, start
the submission steps, record the per-worker started flag, and on a throw
record the failure and continue with the remaining workers. Returns
(started flags paired with indices, events, 1-based failed indices). -/
def phaseA (env : MultiEnv) : List Nat → List (Nat × Bool) × List PhaseEv × List Nat
  | [] => ([], [], [])
  | idx :: rest =>
    let ok := env.submitOk idx
    let r := phaseA env rest
    ((idx, ok) :: r.1, PhaseEv.submitStart (idx + 1) :: r.2.1,
      if ok then r.2.2 else (idx + 1) :: r.2.2)

/-- Phase B (the second `for` loop): skip workers whose submission did not
start; for the others wait-and-download, pushing the attempt's
`getMultiOutputPath` result on success and recording the failure on a
throw. Returns (events, saved paths, 1-based failed indices). -/
def phaseB (env : MultiEnv) (basePath : List Char) (count : Nat) :
    List (Nat × Bool) → List PhaseEv × List (List Char) × List Nat
  | [] => ([], [], [])
  | ib :: rest =>
    let r := phaseB env basePath count rest
    if ib.2 then
      (PhaseEv.waitStart (ib.1 + 1) :: r.1,
       if env.finishOk ib.1 then
         getMultiOutputPath basePath (ib.1 + 1) count :: r.2.1
       else r.2.1,
       if env.finishOk ib.1 then r.2.2 else (ib.1 + 1) :: r.2.2)
    else r

/-- Aggregated outcome of the `count > 1` branch of the `generate` command. -/
structure MultiOutcome where
  trace : List PhaseEv
  savedPaths : List (List Char)
  startFailures : List Nat
  waitFailures : List Nat

/-- The `count > 1` orchestration of `src/commands/generate.ts`: worker
pages and output paths are set up for indices `0 .. count-1` (paths via
`getMultiOutputPath(basePath, index+1, count)`), then phase A runs over all
workers in index order, then phase B runs over the phase-A flags. -/
def runGenerateMulti (count : Nat) (basePath : List Char) (env : MultiEnv) :
    MultiOutcome :=
  ⟨(phaseA env (List.range count)).2.1 ++
     (phaseB env basePath count (phaseA env (List.range count)).1).1,
   (phaseB env basePath count (phaseA env (List.range count)).1).2.1,
   (phaseA env (List.range count)).2.2,
   (phaseB env basePath count (phaseA env (List.range count)).1).2.2⟩

theorem phaseA_eq (env : MultiEnv) (l : List Nat) :
    phaseA env l =
      (l.map fun idx => (idx, env.submitOk idx),
       l.map fun idx => PhaseEv.submitStart (idx + 1),
       l.filterMap fun idx =>
         if env.submitOk idx then none else some (idx + 1)) := by
  induction l with
  | nil => rfl
  | cons idx rest ih =>
    simp only [phaseA, ih, List.map_cons, List.filterMap_cons]
    cases h : env.submitOk idx with
    | true => simp [h]
    | false => simp [h]

theorem phaseB_eq (env : MultiEnv) (basePath : List Char) (count : Nat)
    (l : List (Nat × Bool)) :
    phaseB env basePath count l =
      (l.filterMap fun ib =>
         if ib.2 then some (PhaseEv.waitStart (ib.1 + 1)) else none,
       l.filterMap fun ib =>
         if ib.2 && env.finishOk ib.1 then
           some (getMultiOutputPath basePath (ib.1 + 1) count) else none,
       l.filterMap fun ib =>
         if ib.2 && !(env.finishOk ib.1) then some (ib.1 + 1) else none) := by
  induction l with
  | nil => rfl
  | cons ib rest ih =>
    obtain ⟨idx, started⟩ := ib
    simp only [phaseB, ih, List.filterMap_cons]
    cases started with
    | true =>
      cases hf : env.finishOk idx with
      | true => simp [hf]
      | false => simp [hf]
    | false => simp

/-- C6: in a multi-attempt run, the submission phase of every attempt is
initiated (and resolved as started or failed) in index order `1..count`
before the wait-and-capture phase of any attempt begins, and only attempts
whose submission succeeded enter the wait-and-capture phase. -/
theorem c6_two_phase_barrier (count : Nat) (basePath : List Char) (env : MultiEnv)
    (hcount : 1 < count) :
    (runGenerateMulti count basePath env).trace =
      ((List.range count).map fun idx => PhaseEv.submitStart (idx + 1)) ++
      ((List.range count).filterMap fun idx =>
        if env.submitOk idx then some (PhaseEv.waitStart (idx + 1)) else none) ∧
    (∀ i, PhaseEv.waitStart i ∈ (runGenerateMulti count basePath env).trace →
      ∃ idx, idx < count ∧ i = idx + 1 ∧ env.submitOk idx = true) := by
  have htrace : (runGenerateMulti count basePath env).trace =
      ((List.range count).map fun idx => PhaseEv.submitStart (idx + 1)) ++
      ((List.range count).filterMap fun idx =>
        if env.submitOk idx then some (PhaseEv.waitStart (idx + 1)) else none) := by
    unfold runGenerateMulti
    rw [phaseA_eq, phaseB_eq]
    simp only [List.filterMap_map]
    congr 1
  refine ⟨htrace, ?_⟩
  intro i hi
  rw [htrace] at hi
  rcases List.mem_append.mp hi with h | h
  · exfalso
    obtain ⟨idx, hidx, heq⟩ := List.mem_map.mp h
    exact PhaseEv.noConfusion heq
  · obtain ⟨idx, hidx, heq⟩ := List.mem_filterMap.mp h
    by_cases hok : env.submitOk idx = true
    · rw [if_pos hok] at heq
      refine ⟨idx, List.mem_range.mp hidx, ?_, hok⟩
      have : idx + 1 = i := by
        simpa using heq
      omega
    · rw [if_neg hok] at heq
      exact Option.noConfusion heq

/-- Witness for `c6_two_phase_barrier`: `count = 2` with both submissions
succeeding. -/
theorem c6_two_phase_barrier_witness :
    (runGenerateMulti 2 ['x'] ⟨fun _ => true, fun _ => true⟩).trace =
      ((List.range 2).map fun idx => PhaseEv.submitStart (idx + 1)) ++
      ((List.range 2).filterMap fun idx =>
        if (⟨fun _ => true, fun _ => true⟩ : MultiEnv).submitOk idx then
          some (PhaseEv.waitStart (idx + 1)) else none) ∧
    ∃ idx, idx < 2 ∧ 2 = idx + 1 ∧
      (⟨fun _ => true, fun _ => true⟩ : MultiEnv).submitOk idx = true := by
  obtain ⟨h1, h2⟩ :=
    c6_two_phase_barrier 2 ['x'] ⟨fun _ => true, fun _ => true⟩ (by decide)
  exact ⟨h1, h2 2 (by decide)⟩

/-- C1: for a run with `count = 3` in which attempt #2's submission step
raises while the other attempts' steps succeed, the command records exactly
the two output paths computed for indices 1 and 3, records one submission
failure for index 2 and no wait-phase failure, attempt 2 never enters the
wait-and-download phase, and attempts 1 and 3 do enter it — the failed
attempt does not block its siblings. -/
theorem c1_partial_failure_isolation (basePath : List Char) (env : MultiEnv)
    (h1 : env.submitOk 0 = true) (h2 : env.submitOk 1 = false)
    (h3 : env.submitOk 2 = true)
    (h4 : env.finishOk 0 = true) (h5 : env.finishOk 2 = true) :
    (runGenerateMulti 3 basePath env).savedPaths =
      [getMultiOutputPath basePath 1 3, getMultiOutputPath basePath 3 3] ∧
    (runGenerateMulti 3 basePath env).startFailures = [2] ∧
    (runGenerateMulti 3 basePath env).waitFailures = [] ∧
    PhaseEv.waitStart 2 ∉ (runGenerateMulti 3 basePath env).trace ∧
    PhaseEv.waitStart 1 ∈ (runGenerateMulti 3 basePath env).trace ∧
    PhaseEv.waitStart 3 ∈ (runGenerateMulti 3 basePath env).trace := by
  have hrange : List.range 3 = [0, 1, 2] := rfl
  unfold runGenerateMulti
  rw [phaseA_eq, phaseB_eq, hrange]
  simp [h1, h2, h3, h4, h5]

/-- Witness for `c1_partial_failure_isolation`: the concrete environment in
which exactly worker index 1 (attempt #2) fails to submit. -/
theorem c1_partial_failure_isolation_witness :
    (runGenerateMulti 3 ['x'] ⟨fun i => i != 1, fun _ => true⟩).savedPaths =
      [getMultiOutputPath ['x'] 1 3, getMultiOutputPath ['x'] 3 3] ∧
    (runGenerateMulti 3 ['x'] ⟨fun i => i != 1, fun _ => true⟩).startFailures = [2] ∧
    (runGenerateMulti 3 ['x'] ⟨fun i => i != 1, fun _ => true⟩).waitFailures = [] ∧
    PhaseEv.waitStart 2 ∉ (runGenerateMulti 3 ['x'] ⟨fun i => i != 1, fun _ => true⟩).trace ∧
    PhaseEv.waitStart 1 ∈ (runGenerateMulti 3 ['x'] ⟨fun i => i != 1, fun _ => true⟩).trace ∧
    PhaseEv.waitStart 3 ∈ (runGenerateMulti 3 ['x'] ⟨fun i => i != 1, fun _ => true⟩).trace :=
  c1_partial_failure_isolation ['x'] ⟨fun i => i != 1, fun _ => true⟩ rfl rfl rfl rfl rfl

/-!
## Download capture (`waitForDownloadedFile` / `downloadImage` in
`gemini-automation.ts`)
-/

/-- A directory entry name is finalized when it carries neither of the
partial-download suffixes `.crdownload` and `.tmp`. -/
def isFinalizedName (name : List Char) : Bool :=
  !(endsWithL (".crdownload").toList name || endsWithL (".tmp").toList name)

/-- The file-selection rule of `waitForDownloadedFile` applied to one
directory observation: keep the names absent from the pre-trigger snapshot,
keep only finalized names, and among those return the name of the most
recently modified entry (`candidates.sort((a, b) => b.mtimeMs - a.mtimeMs);
candidates[0]` — the stable descending sort's head is the first entry
attaining the maximal `mtimeMs`, which the fold below computes). `none`
models a poll round that found no finalized new file. -/
def pickDownloadedFile (beforeSet : List (List Char))
    (files : List (List Char × Nat)) : Option (List Char) :=
  match (files.filter fun f => !(beforeSet.contains f.1)).filter
      (fun f => isFinalizedName f.1) with
  | [] => none
  | x :: xs =>
    some (xs.foldl (fun best y => if best.2 < y.2 then y else best) x).1

/-- Filesystem observations consumed by one `downloadImage` call:
whether `hoverGeneratedImage` finds a generated image, whether
`clickDownloadFullSize` manages any of its click paths, the private
temporary directory name, its pre-trigger listing, the listing observed by
the poll (with modification times), and whether the `rename` to the output
path succeeds. -/
structure DownloadEnv where
  imageFound : Bool
  clickOk : Bool
  tempDirName : List Char
  beforeSet : List (List Char)
  observedFiles : List (List Char × Nat)
  renameOk : Bool

/-- Filesystem effects performed by `downloadImage`. -/
inductive FsEffect where
  | renamed (src dst : List Char)
  | removedTempDir (dir : List Char)
deriving DecidableEq


/-- The tail of `downloadImage` once a completed file `name` has been
observed: `try { if (downloadedPath !== outputPath) rename(...) } finally {
rm(tempDir, recursive, force) }; return outputPath` — the removal of the
temporary directory happens on both the success and the failure path of the
rename, and a rename failure still propagates. -/
def finalizeDownload (env : DownloadEnv) (outputPath name : List Char) :
    Except AutomationError (List Char) × List FsEffect :=
  if env.tempDirName ++ '/' :: name = outputPath then
    (Except.ok outputPath, [FsEffect.removedTempDir env.tempDirName])
  else if env.renameOk then
    (Except.ok outputPath,
     [FsEffect.renamed (env.tempDirName ++ '/' :: name) outputPath,
      FsEffect.removedTempDir env.tempDirName])
  else
    (Except.error AutomationError.fsRenameError,
     [FsEffect.removedTempDir env.tempDirName])

/-- `downloadImage` from `gemini-automation.ts`: raise `SelectorError` when
no generated image is found or no download control can be clicked; wait for
a finalized new file in the private temporary directory (raising
`DownloadError` when none appears within the poll budget); then move the
file to the caller's path inside `try { rename } finally { rm(tempDir) }`
and return the caller's exact output path. The second component lists the
completed filesystem effects in order. -/
def downloadImage (env : DownloadEnv) (outputPath : List Char) :
    Except AutomationError (List Char) × List FsEffect :=
  if env.imageFound = false then
    (Except.error (AutomationError.selectorError (("Generated image element").toList)), [])
  else if env.clickOk = false then
    (Except.error
      (AutomationError.selectorError (("Download full-sized image button").toList)), [])
  else
    match pickDownloadedFile env.beforeSet env.observedFiles with
    | none =>
      (Except.error (AutomationError.downloadError
        (("Timed out waiting for browser download to complete.").toList)), [])
    | some name => finalizeDownload env outputPath name

theorem foldl_pick_mem_max (xs : List (List Char × Nat)) :
    ∀ x : List Char × Nat,
      (xs.foldl (fun best y => if best.2 < y.2 then y else best) x) ∈ x :: xs ∧
      ∀ w ∈ x :: xs,
        w.2 ≤ (xs.foldl (fun best y => if best.2 < y.2 then y else best) x).2 := by
  induction xs with
  | nil =>
    intro x
    simp
  | cons z zs ih =>
    intro x
    simp only [List.foldl_cons]
    by_cases hxz : x.2 < z.2
    · simp only [if_pos hxz]
      obtain ⟨hmem, hmax⟩ := ih z
      have hz2 : z.2 ≤ (zs.foldl (fun best y => if best.2 < y.2 then y else best) z).2 :=
        hmax z (List.mem_cons_self _ _)
      constructor
      · rcases List.mem_cons.mp hmem with h | h
        · rw [h]
          exact List.mem_cons.mpr (Or.inr (List.mem_cons_self _ _))
        · exact List.mem_cons.mpr (Or.inr (List.mem_cons.mpr (Or.inr h)))
      · intro w hw
        rcases List.mem_cons.mp hw with h | h
        · subst h
          omega
        · rcases List.mem_cons.mp h with h' | h'
          · subst h'
            exact hz2
          · exact hmax w (List.mem_cons_of_mem _ h')
    · simp only [if_neg hxz]
      obtain ⟨hmem, hmax⟩ := ih x
      have hx2 : x.2 ≤ (zs.foldl (fun best y => if best.2 < y.2 then y else best) x).2 :=
        hmax x (List.mem_cons_self _ _)
      constructor
      · rcases List.mem_cons.mp hmem with h | h
        · rw [h]
          exact List.mem_cons_self _ _
        · exact List.mem_cons.mpr (Or.inr (List.mem_cons.mpr (Or.inr h)))
      · intro w hw
        rcases List.mem_cons.mp hw with h | h
        · subst h
          exact hx2
        · rcases List.mem_cons.mp h with h' | h'
          · subst h'
            omega
          · exact hmax w (List.mem_cons_of_mem _ h')

theorem pickDownloadedFile_spec (beforeSet : List (List Char))
    (files : List (List Char × Nat)) (name : List Char)
    (h : pickDownloadedFile beforeSet files = some name) :
    beforeSet.contains name = false ∧ isFinalizedName name = true ∧
    (∃ t, (name, t) ∈ files ∧
      ∀ m ∈ files, beforeSet.contains m.1 = false → isFinalizedName m.1 = true →
        m.2 ≤ t) := by
  unfold pickDownloadedFile at h
  cases hfin : (files.filter fun f => !(beforeSet.contains f.1)).filter
      (fun f => isFinalizedName f.1) with
  | nil =>
    rw [hfin] at h
    exact absurd h (by simp)
  | cons x xs =>
    rw [hfin] at h
    have h' : (xs.foldl (fun best y => if best.2 < y.2 then y else best) x).1 = name := by
      simpa using h
    obtain ⟨hmem, hmax⟩ := foldl_pick_mem_max xs x
    rw [← hfin] at hmem
    have h1 := List.mem_filter.mp hmem
    have h2 := List.mem_filter.mp h1.1
    have hname1 : beforeSet.contains name = false := by
      have := h2.2
      rw [h'] at this
      simpa using this
    have hname2 : isFinalizedName name = true := by
      have := h1.2
      rw [h'] at this
      exact this
    refine ⟨hname1, hname2,
      (xs.foldl (fun best y => if best.2 < y.2 then y else best) x).2, ?_, ?_⟩
    · rw [← h']
      exact h2.1
    · intro m hm hmb hmf
      have hmfin : m ∈ (files.filter fun f => !(beforeSet.contains f.1)).filter
          (fun f => isFinalizedName f.1) := by
        refine List.mem_filter.mpr ⟨List.mem_filter.mpr ⟨hm, ?_⟩, hmf⟩
        simpa using hmb
      rw [hfin] at hmfin
      exact hmax m hmfin

/-- C4: download capture returns exactly the output path it was given; the
file-selection rule only ever picks a file absent from the pre-trigger
snapshot whose name carries no partial-download suffix (`.crdownload`,
`.tmp`) and whose modification time is maximal among all qualifying new
files; and given one partial-suffixed and one complete newly created file,
it selects the complete one whatever their (equal or not) timestamps. -/
theorem c4_download_capture :
    (∀ (env : DownloadEnv) (outputPath q : List Char),
      (downloadImage env outputPath).1 = Except.ok q → q = outputPath) ∧
    (∀ (beforeSet : List (List Char)) (files : List (List Char × Nat)) (name : List Char),
      pickDownloadedFile beforeSet files = some name →
      beforeSet.contains name = false ∧ isFinalizedName name = true ∧
      ∃ t, (name, t) ∈ files ∧
        ∀ m ∈ files, beforeSet.contains m.1 = false → isFinalizedName m.1 = true →
          m.2 ≤ t) ∧
    (∀ (n1 n2 : List Char) (t1 t2 : Nat),
      isFinalizedName n1 = false → isFinalizedName n2 = true →
      pickDownloadedFile [] [(n1, t1), (n2, t2)] = some n2) := by
  refine ⟨?_, pickDownloadedFile_spec, ?_⟩
  · intro env outputPath q hok
    unfold downloadImage at hok
    by_cases h1 : env.imageFound = false
    · rw [if_pos h1] at hok
      exact absurd hok (by simp)
    · rw [if_neg h1] at hok
      by_cases h2 : env.clickOk = false
      · rw [if_pos h2] at hok
        exact absurd hok (by simp)
      · rw [if_neg h2] at hok
        cases hpick : pickDownloadedFile env.beforeSet env.observedFiles with
        | none =>
          rw [hpick] at hok
          exact absurd hok (by simp)
        | some name =>
          rw [hpick] at hok
          replace hok : (finalizeDownload env outputPath name).1 = Except.ok q := hok
          unfold finalizeDownload at hok
          by_cases h3 : env.tempDirName ++ '/' :: name = outputPath
          · rw [if_pos h3] at hok
            have : Except.ok outputPath = Except.ok q := hok
            injection this with this
            exact this.symm
          · rw [if_neg h3] at hok
            by_cases h4 : env.renameOk
            · rw [if_pos h4] at hok
              have : Except.ok outputPath = Except.ok q := hok
              injection this with this
              exact this.symm
            · rw [if_neg h4] at hok
              exact absurd hok (by simp)
  · intro n1 n2 t1 t2 hf1 hf2
    unfold pickDownloadedFile
    simp [hf1, hf2]

/-- Witness for `c4_download_capture`: with an empty snapshot, a partial
`img.png.crdownload` and a complete `img.png` created at the same instant,
the complete file is selected. -/
theorem c4_download_capture_witness :
    pickDownloadedFile []
      [(("img.png.crdownload").toList, 5), (("img.png").toList, 5)] =
      some (("img.png").toList) :=
  c4_download_capture.2.2 (("img.png.crdownload").toList) (("img.png").toList) 5 5
    (by decide) (by decide)

/-- C10: in `downloadImage`, once a completed (non-partial) downloaded file
has been observed in the private temporary download directory, the
temporary directory is always removed — also when the rename/move to the
caller's requested output path fails — and in that failure case the rename
error still propagates to the caller. -/
theorem c10_temp_dir_cleanup (env : DownloadEnv) (outputPath name : List Char)
    (himg : env.imageFound = true) (hclick : env.clickOk = true)
    (hpick : pickDownloadedFile env.beforeSet env.observedFiles = some name) :
    FsEffect.removedTempDir env.tempDirName ∈ (downloadImage env outputPath).2 ∧
    (env.renameOk = false → env.tempDirName ++ '/' :: name ≠ outputPath →
      (downloadImage env outputPath).1 = Except.error AutomationError.fsRenameError) := by
  have hred : downloadImage env outputPath = finalizeDownload env outputPath name := by
    unfold downloadImage
    rw [if_neg (by simp [himg]), if_neg (by simp [hclick]), hpick]
  rw [hred]
  unfold finalizeDownload
  constructor
  · by_cases h3 : env.tempDirName ++ '/' :: name = outputPath
    · rw [if_pos h3]
      simp
    · rw [if_neg h3]
      by_cases h4 : env.renameOk
      · rw [if_pos h4]
        simp
      · rw [if_neg h4]
        simp
  · intro hrn hne
    rw [if_neg hne, if_neg (by simp [hrn])]

/-- Witness for `c10_temp_dir_cleanup`: a concrete environment where the
rename fails — the temporary directory is still removed and the rename
error propagates. -/
theorem c10_temp_dir_cleanup_witness :
    FsEffect.removedTempDir (("tmpdl").toList) ∈
      (downloadImage ⟨true, true, ("tmpdl").toList, [], [(("img.png").toList, 5)], false⟩
        (("out.png").toList)).2 ∧
    (downloadImage ⟨true, true, ("tmpdl").toList, [], [(("img.png").toList, 5)], false⟩
        (("out.png").toList)).1 = Except.error AutomationError.fsRenameError := by
  have h := c10_temp_dir_cleanup
    ⟨true, true, ("tmpdl").toList, [], [(("img.png").toList, 5)], false⟩
    (("out.png").toList) (("img.png").toList) rfl rfl (by decide)
  exact ⟨h.1, h.2 rfl (by decide)⟩

/-!
## Session registry and signal cleanup (`src/utils/cleanup.ts`)
-/

/-- The module-level `activeSessions` registry (sessions identified by an
opaque id). -/
structure CleanupRegistry where
  activeSessions : List Nat
deriving DecidableEq

/-- `registerSession`: push onto the registry. -/
def registerSession (r : CleanupRegistry) (s : Nat) : CleanupRegistry :=
  ⟨r.activeSessions ++ [s]⟩

/-- `unregisterSession`: keep every entry that is not the given session. -/
def unregisterSession (r : CleanupRegistry) (s : Nat) : CleanupRegistry :=
  ⟨r.activeSessions.filter fun x => x ≠ s⟩

/-- `cleanup`: copy the registry, clear it, then close every copied session
with `Promise.allSettled`, each close wrapped in its own `catch`. The
result is (new registry state, sessions whose close was attempted); the
attempted set does not depend on which closes succeed (`closeOk`), which is
exactly the failure tolerance of `allSettled` + per-close `catch`. -/
def cleanup (closeOk : Nat → Bool) (r : CleanupRegistry) :
    CleanupRegistry × List Nat :=
  (⟨[]⟩, r.activeSessions)

/-- The SIGINT/SIGTERM handler installed by `registerCleanupHandlers`: show
the cancellation message, run `cleanup`, then `process.exit(130)`. Result:
(final registry, closes attempted, exit code). -/
def handleSignal (closeOk : Nat → Bool) (r : CleanupRegistry) :
    CleanupRegistry × List Nat × Nat :=
  ((cleanup closeOk r).1, (cleanup closeOk r).2, 130)

/-- C9: on an operator interrupt, every still-registered session's close is
attempted (best-effort: the attempted set is the same whatever the
per-session close outcomes are) and the process exits with the fixed
cancellation code 130; cleanup empties the registry synchronously before
awaiting the closes, so a second cleanup invocation while shutdown is in
progress finds the registry empty and closes no session a second time. -/
theorem c9_signal_cleanup (closeOk closeOk2 : Nat → Bool) (r : CleanupRegistry) :
    (handleSignal closeOk r).2.2 = 130 ∧
    (handleSignal closeOk r).2.1 = r.activeSessions ∧
    (cleanup closeOk r).2 = (cleanup closeOk2 r).2 ∧
    (cleanup closeOk r).1.activeSessions = [] ∧
    (cleanup closeOk2 (cleanup closeOk r).1).2 = [] := by
  exact ⟨rfl, rfl, rfl, rfl, rfl⟩
